import Mathlib

/-!
Verification of the temporal-alignment and rolling-accumulation core of the
Bitcoin indicators data fetcher (`fetch_data.py`).

The embedding choices, shared by all definitions below:

* A calendar date (`YYYY-MM-DD` string in the source) is modelled as an
  integer day number (`DateKey := Int`): lexicographic order on the canonical
  textual form coincides with chronological order, and the whole-day distance
  `abs((target - date_obj).days)` computed by the source becomes
  `(target - d).natAbs`.
* A Python `dict` from date to numeric value is modelled as an association
  list in insertion order (`DateSeries`), since Python dicts iterate in
  insertion order and the nearest-value scan iterates `data_dict.items()`.
  Numeric values are modelled as rationals.
* Fallible results (`None` in the source) are modelled with `Option`.
-/

namespace FetchData

/-- A calendar date at day granularity, as an integer day number. -/
abbrev DateKey := Int

/-- A source series: mapping from date to numeric value, in insertion order. -/
abbrev DateSeries := List (DateKey × ℚ)

/-- Loop body of `find_nearest_value`: the running state is
`(nearest_value, min_diff)`; a strictly smaller whole-day distance updates
both components, anything else leaves the state unchanged. -/
def fnv_step (target_date : DateKey) (s : Option ℚ × Nat) (p : DateKey × ℚ) :
    Option ℚ × Nat :=
  let diff := (target_date - p.1).natAbs
  if diff < s.2 then (some p.2, diff) else s

/-- `find_nearest_value(target_date, data_dict, max_days)` from the source:
returns `None` for an empty dict, otherwise scans all entries with running
state initialised to `(None, max_days + 1)` and keeps the value of the first
entry realising each strict decrease of the distance. -/
def find_nearest_value (target_date : DateKey) (data_dict : DateSeries)
    (max_days : Nat) : Option ℚ :=
  if data_dict = [] then
    none
  else
    (data_dict.foldl (fnv_step target_date) ((none : Option ℚ), max_days + 1)).1

/-- Per-date, per-auxiliary-series body of the `align_data` loop: use the
stored value on an exact date match, otherwise fall back to
`find_nearest_value` with the hardcoded 3-day window. -/
def align_value (aux : DateSeries) (date : DateKey) : Option ℚ :=
  match aux.lookup date with
  | some v => some v
  | none => find_nearest_value date aux 3

/-- The four parallel sequences built by `align_data` (the reference price is
obtained by key lookup, hence `Option`; it is `some` whenever the reference
series has no duplicate key, which is automatic for a Python dict). -/
structure AlignedTable where
  dates : List DateKey
  btc_prices : List (Option ℚ)
  fng_index : List (Option ℚ)
  vix_index : List (Option ℚ)

/-- `align_data(btc_prices, fng_index, vix_index)` from the source: the axis
is `sorted(btc_prices.keys())`, and each output column records, per axis
date, the reference price resp. the aligned auxiliary value. -/
def align_data (btc_prices fng_index vix_index : DateSeries) : AlignedTable :=
  let all_dates := (btc_prices.map Prod.fst).mergeSort (fun a b => decide (a ≤ b))
  { dates := all_dates
    btc_prices := all_dates.map (fun date => btc_prices.lookup date)
    fng_index := all_dates.map (fun date => align_value fng_index date)
    vix_index := all_dates.map (fun date => align_value vix_index date) }

/-- `update_pcr_history(existing_data, today_pcr)` from the source, with the
current date made explicit as `today`.  `existing_data` is `some history`
when the loaded snapshot carries both `pcr_dates` and `pcr_index` keys, else
`none` (fresh start).  An absent sample skips the insertion step; a present
sample either overwrites in place at the first index of `today` (Python
`list.index`) or appends at the end; the truncation to the last 365 entries
(`l[-365:]`) then runs on the result of that step. -/
def update_pcr_history (existing_data : Option (List DateKey × List ℚ))
    (today : DateKey) (today_pcr : Option ℚ) : List DateKey × List ℚ :=
  let pcr_dates := match existing_data with | some h => h.1 | none => []
  let pcr_values := match existing_data with | some h => h.2 | none => []
  let inserted : List DateKey × List ℚ :=
    match today_pcr with
    | none => (pcr_dates, pcr_values)
    | some v =>
      if today ∈ pcr_dates then
        (pcr_dates, pcr_values.set (pcr_dates.indexOf today) v)
      else
        (pcr_dates ++ [today], pcr_values ++ [v])
  if inserted.1.length > 365 then
    (inserted.1.drop (inserted.1.length - 365),
     inserted.2.drop (inserted.2.length - 365))
  else
    inserted

/-- Python `round` ties-to-even rounding of a rational to an integer. -/
def round_half_even (q : ℚ) : Int :=
  let f := Rat.floor q
  if q - f < 1 / 2 then f
  else if (1 : ℚ) / 2 < q - f then f + 1
  else if f % 2 = 0 then f else f + 1

/-- Python `round(q, n)`: round to `n` decimal places, ties to even. -/
def pyround (q : ℚ) (n : Nat) : ℚ :=
  (round_half_even (q * 10 ^ n) : ℚ) / 10 ^ n

/-- Core of `fetch_ibit_put_call_ratio` from the source, over the summed
open interest per expiration (`chains` lists, per listed expiration, the
call-side and put-side open-interest sums; the HTTP and dataframe plumbing
is the external collaborator).  Mirrors: `None` when no expirations are
listed, `None` when the summed call open interest is zero, otherwise
`round(total_put_oi / total_call_oi, 4)`. -/
def fetch_ibit_pcr (chains : List (ℚ × ℚ)) : Option ℚ :=
  if chains = [] then
    none
  else
    let total_call_oi := (chains.map Prod.fst).sum
    let total_put_oi := (chains.map Prod.snd).sum
    if total_call_oi = 0 then
      none
    else
      some (pyround (total_put_oi / total_call_oi) 4)

/-- The persisted snapshot assembled by `main` (the `last_updated` timestamp
string is omitted: it carries no alignment or accumulation content). -/
structure Snapshot where
  dates : List DateKey
  btc_prices : List (Option ℚ)
  fng_index : List (Option ℚ)
  vix_index : List (Option ℚ)
  pcr_dates : List DateKey
  pcr_index : List ℚ

/-- `update_pcr_history` with Python's partiality made explicit: the
in-place assignment `pcr_values[idx] = today_pcr` raises `IndexError`
whenever the first index of `today` in `pcr_dates` is not a valid index of
`pcr_values` — reachable when a loaded snapshot carries `pcr_dates` and
`pcr_index` of mismatched lengths, which `load_existing_data` does not
screen out.  `none` models the raised exception; on every non-raising input
the total `List.set` of `update_pcr_history` coincides with the Python
assignment, so the result is `update_pcr_history` itself. -/
def update_pcr_history_checked (existing_data : Option (List DateKey × List ℚ))
    (today : DateKey) (today_pcr : Option ℚ) : Option (List DateKey × List ℚ) :=
  let pcr_dates := match existing_data with | some h => h.1 | none => []
  let pcr_values := match existing_data with | some h => h.2 | none => []
  match today_pcr with
  | none => some (update_pcr_history existing_data today none)
  | some v =>
    if today ∈ pcr_dates ∧ pcr_values.length ≤ pcr_dates.indexOf today then
      none
    else
      some (update_pcr_history existing_data today (some v))

/-- The decision structure of `main` over already-fetched inputs: `none`
models a run that writes nothing — either the early `return` on an empty
price series (`if not btc_prices`) or an uncaught `IndexError` escaping the
accumulator update before `json.dump` is reached; `some snapshot` models the
snapshot handed to `json.dump`.  The alignment step is total, so its
position before the accumulator update cannot add a further no-write
path. -/
def main_run (existing_data : Option (List DateKey × List ℚ))
    (btc_prices fng_index vix_index : DateSeries)
    (today : DateKey) (today_pcr : Option ℚ) : Option Snapshot :=
  if btc_prices = [] then
    none
  else
    match update_pcr_history_checked existing_data today today_pcr with
    | none => none
    | some ph =>
      let t := align_data btc_prices fng_index vix_index
      some { dates := t.dates, btc_prices := t.btc_prices,
             fng_index := t.fng_index, vix_index := t.vix_index,
             pcr_dates := ph.1, pcr_index := ph.2 }

/-- Iterated accumulation: starting from an empty history, merge one present
sample per day for `n` consecutive days `start, start+1, ...`, day `i`
carrying value `vals i`. -/
def merge_run (start : DateKey) (vals : Nat → ℚ) : Nat → List DateKey × List ℚ
  | 0 => ([], [])
  | n + 1 =>
    update_pcr_history (some (merge_run start vals n)) (start + (n : Int))
      (some (vals n))

/-! ### Properties of the nearest-value scan -/

/-- Entries whose distance does not strictly beat the running minimum never
change the scan state. -/
theorem fnv_foldl_keep (t : DateKey) :
    ∀ (l : DateSeries) (s : Option ℚ × Nat),
      (∀ q ∈ l, s.2 ≤ (t - q.1).natAbs) → l.foldl (fnv_step t) s = s := by
  intro l
  induction l with
  | nil => intro s _; rfl
  | cons p l ih =>
    intro s h
    have hp : s.2 ≤ (t - p.1).natAbs := h p (List.mem_cons_self p l)
    have hstep : fnv_step t s p = s := by
      simp only [fnv_step]
      rw [if_neg (by omega)]
    rw [List.foldl_cons, hstep]
    exact ih s fun q hq => h q (List.mem_cons_of_mem p hq)

/-- The running minimum distance stays above any bound that is below the
initial state and below every entry's distance. -/
theorem fnv_foldl_min_lt (t : DateKey) (d : Nat) :
    ∀ (l : DateSeries) (s : Option ℚ × Nat),
      d < s.2 → (∀ q ∈ l, d < (t - q.1).natAbs) →
      d < (l.foldl (fnv_step t) s).2 := by
  intro l
  induction l with
  | nil => intro s hs _; exact hs
  | cons p l ih =>
    intro s hs h
    rw [List.foldl_cons]
    refine ih (fnv_step t s p) ?_ fun q hq => h q (List.mem_cons_of_mem p hq)
    by_cases hlt : (t - p.1).natAbs < s.2
    · have := h p (List.mem_cons_self p l)
      simp only [fnv_step]
      rw [if_pos hlt]
      exact this
    · simp only [fnv_step]
      rw [if_neg hlt]
      exact hs

/-- C2 (amended): for every series listed as `l₁ ++ (d, v) :: l₂` where the
entry `(d, v)` is within tolerance, strictly closer to the target than every
entry before it and at least as close as every entry after it — i.e. `(d, v)`
is the first entry of the series, in its natural iteration order, attaining
the minimum whole-day distance — the nearest-value scan returns `v`.  The
selected date is the first encountered among tying dates, not in general the
earliest one. -/
theorem find_nearest_value_first_min (t : DateKey) (tol : Nat)
    (l₁ l₂ : DateSeries) (d : DateKey) (v : ℚ)
    (h₁ : ∀ q ∈ l₁, (t - d).natAbs < (t - q.1).natAbs)
    (h₂ : ∀ q ∈ l₂, (t - d).natAbs ≤ (t - q.1).natAbs)
    (htol : (t - d).natAbs ≤ tol) :
    find_nearest_value t (l₁ ++ (d, v) :: l₂) tol = some v := by
  simp only [find_nearest_value]
  rw [if_neg (by simp), List.foldl_append, List.foldl_cons]
  have hlt : (t - d).natAbs < (l₁.foldl (fnv_step t) ((none : Option ℚ), tol + 1)).2 :=
    fnv_foldl_min_lt t _ l₁ _ (by omega) h₁
  have hstep :
      fnv_step t (l₁.foldl (fnv_step t) ((none : Option ℚ), tol + 1)) (d, v) =
        (some v, (t - d).natAbs) := by
    simp only [fnv_step]
    rw [if_pos hlt]
  rw [hstep, fnv_foldl_keep t l₂ (some v, (t - d).natAbs) fun q hq => h₂ q hq]

/-- C2 witness: target 10, series `[(14, 7), (9, 5), (11, 6)]`, tolerance 3:
dates 9 and 11 tie at distance 1, entry `(9, 5)` comes first, value 5 wins. -/
theorem find_nearest_value_first_min_witness :
    (∀ q ∈ [((14 : Int), (7 : ℚ))], ((10 : Int) - 9).natAbs < (10 - q.1).natAbs) ∧
    (∀ q ∈ [((11 : Int), (6 : ℚ))], ((10 : Int) - 9).natAbs ≤ (10 - q.1).natAbs) ∧
    ((10 : Int) - 9).natAbs ≤ 3 ∧
    find_nearest_value 10
      ([((14 : Int), (7 : ℚ))] ++ ((9 : Int), (5 : ℚ)) :: [((11 : Int), (6 : ℚ))]) 3 =
      some 5 :=
  ⟨by decide, by decide, by decide,
    find_nearest_value_first_min 10 3 _ _ 9 5 (by decide) (by decide) (by decide)⟩

/-- C2 (counterexample): target 10, series iterating `(11, 1)` before
`(9, 2)`, tolerance 3: the two dates tie at distance 1, the earliest tying
date 9 carries value 2, but the scan returns the first-encountered value 1 —
so "first encountered" is not equivalent to "earliest date". -/
theorem find_nearest_value_earliest_cex :
    ((10 : Int) - 11).natAbs = ((10 : Int) - 9).natAbs ∧
    ((10 : Int) - 11).natAbs ≤ 3 ∧
    (9 : Int) < 11 ∧
    find_nearest_value 10 [((11 : Int), (1 : ℚ)), (9, 2)] 3 = some 1 ∧
    find_nearest_value 10 [((11 : Int), (1 : ℚ)), (9, 2)] 3 ≠ some 2 := by
  decide

/-- C3: the tolerance cutoff of the nearest-value scan is inclusive: a lone
sample at whole-day distance exactly `tol` is returned, a lone sample at
distance `tol + 1` yields `none`. -/
theorem find_nearest_value_tolerance_boundary (t d : DateKey) (v : ℚ) (tol : Nat) :
    ((t - d).natAbs = tol → find_nearest_value t [(d, v)] tol = some v) ∧
    ((t - d).natAbs = tol + 1 → find_nearest_value t [(d, v)] tol = none) := by
  constructor
  · intro h
    simp only [find_nearest_value, List.foldl_cons, List.foldl_nil, fnv_step, h]
    rw [if_neg (by simp), if_pos (Nat.lt_succ_self tol)]
  · intro h
    simp only [find_nearest_value, List.foldl_cons, List.foldl_nil, fnv_step, h]
    rw [if_neg (by simp), if_neg (Nat.lt_irrefl (tol + 1))]

/-- C3 witness: target 0, tolerance 3: the lone sample at date 3 (distance
exactly 3) is returned, the lone sample at date 4 (distance 4) is not. -/
theorem find_nearest_value_tolerance_boundary_witness :
    (((0 : Int) - 3).natAbs = 3 ∧
      find_nearest_value 0 [((3 : Int), (5 : ℚ))] 3 = some 5) ∧
    (((0 : Int) - 4).natAbs = 3 + 1 ∧
      find_nearest_value 0 [((4 : Int), (5 : ℚ))] 3 = none) :=
  ⟨⟨by decide, (find_nearest_value_tolerance_boundary 0 3 5 3).1 (by decide)⟩,
   ⟨by decide, (find_nearest_value_tolerance_boundary 0 4 5 3).2 (by decide)⟩⟩

/-! ### Properties of the rolling accumulator -/

/-- A 366-entry history: longer than the cap, reachable only from outside
data but within the function's stated domain. -/
def big_dates : List DateKey := (List.range 366).map Int.ofNat

/-- Values paired with `big_dates`. -/
def big_values : List ℚ := List.replicate 366 1

/-- C1 (counterexample): on a 366-entry history, merging an absent sample
does not return the history unchanged — the unconditional truncation to the
last 365 entries still runs and drops the oldest entry. -/
theorem update_pcr_history_absent_cex :
    (update_pcr_history (some (big_dates, big_values)) 1000 none).1 ≠ big_dates := by
  have h366 : big_dates.length = 366 := by simp [big_dates]
  have hres : (update_pcr_history (some (big_dates, big_values)) 1000 none).1.length = 365 := by
    simp [update_pcr_history, h366]
  intro h
  have := congrArg List.length h
  rw [hres, h366] at this
  exact absurd this (by decide)

/-- C1 (amended): for every history whose length does not exceed the 365-day
cap — in particular every history the accumulator itself can produce —
merging an absent sample returns the history unchanged: same dates sequence,
same values sequence. -/
theorem update_pcr_history_absent_id (ds : List DateKey) (vs : List ℚ)
    (today : DateKey) (hcap : ds.length ≤ 365) :
    update_pcr_history (some (ds, vs)) today none = (ds, vs) := by
  simp only [update_pcr_history]
  rw [if_neg (by omega)]

/-- C1 witness: a one-entry history is returned unchanged on an absent
sample. -/
theorem update_pcr_history_absent_id_witness :
    ([(0 : Int)].length ≤ 365) ∧
    update_pcr_history (some ([0], [(1 : ℚ)])) 5 none = ([0], [1]) :=
  ⟨by decide, update_pcr_history_absent_id [0] [1] 5 (by decide)⟩

/-- The first index of a member is a valid index. -/
theorem indexOf_lt_length_of_mem {α : Type} [BEq α] [LawfulBEq α] {a : α} :
    ∀ {l : List α}, a ∈ l → l.indexOf a < l.length := by
  intro l
  induction l with
  | nil => intro h; cases h
  | cons x xs ih =>
    intro h
    rw [List.indexOf_cons]
    cases hx : x == a with
    | true =>
      simp only [Bool.cond_true, List.length_cons]
      exact Nat.succ_pos _
    | false =>
      have hmem : a ∈ xs := by
        rcases List.mem_cons.1 h with he | hxs
        · subst he
          simp at hx
        · exact hxs
      simp only [Bool.cond_false, List.length_cons]
      exact Nat.succ_lt_succ (ih hmem)

/-- C5 (counterexample): a 366-entry history containing the sample's date is
not length-preserved by the merge — the in-place update is followed by the
unconditional truncation, which drops the oldest entry. -/
theorem update_pcr_history_dup_cex :
    (0 : Int) ∈ big_dates ∧
    (update_pcr_history (some (big_dates, big_values)) 0 (some 2)).1 ≠ big_dates := by
  have hmem : (0 : Int) ∈ big_dates := by
    simp only [big_dates, List.mem_map]
    exact ⟨0, List.mem_range.2 (by omega), rfl⟩
  have h366 : big_dates.length = 366 := by simp [big_dates]
  refine ⟨hmem, ?_⟩
  have hres :
      (update_pcr_history (some (big_dates, big_values)) 0 (some 2)).1.length = 365 := by
    simp [update_pcr_history, hmem, h366]
  intro h
  have := congrArg List.length h
  rw [hres, h366] at this
  exact absurd this (by decide)

/-- C5 (amended): for every history within the 365-entry cap whose date and
value sequences have equal length, merging a present sample whose date is
already recorded replaces the stored value at the existing position: the
dates sequence is unchanged, the values length is unchanged, and the value
at that date's position equals the newly merged value. -/
theorem update_pcr_history_dup_update (ds : List DateKey) (vs : List ℚ)
    (today : DateKey) (v : ℚ) (hcap : ds.length ≤ 365)
    (hlen : vs.length = ds.length) (hmem : today ∈ ds) :
    (update_pcr_history (some (ds, vs)) today (some v)).1 = ds ∧
    (update_pcr_history (some (ds, vs)) today (some v)).2.length = vs.length ∧
    (update_pcr_history (some (ds, vs)) today (some v)).2[ds.indexOf today]? =
      some v := by
  have hres : update_pcr_history (some (ds, vs)) today (some v) =
      (ds, vs.set (ds.indexOf today) v) := by
    simp only [update_pcr_history]
    rw [if_pos hmem, if_neg (by dsimp only; omega)]
  rw [hres]
  have hidx : ds.indexOf today < vs.length := by
    rw [hlen]
    exact indexOf_lt_length_of_mem hmem
  exact ⟨rfl, List.length_set vs _ v, List.getElem?_set_self hidx⟩

/-- C5 witness: a two-entry history containing the sample's date 1. -/
theorem update_pcr_history_dup_update_witness :
    ([(0 : Int), 1].length ≤ 365 ∧ [(5 : ℚ), 6].length = [(0 : Int), 1].length ∧
      (1 : Int) ∈ [(0 : Int), 1]) ∧
    ((update_pcr_history (some ([0, 1], [5, 6])) 1 (some 7)).1 = [0, 1] ∧
     (update_pcr_history (some ([0, 1], [5, 6])) 1 (some 7)).2.length =
       [(5 : ℚ), 6].length ∧
     (update_pcr_history (some ([0, 1], [5, 6])) 1 (some 7)).2[
       [(0 : Int), 1].indexOf 1]? = some 7) :=
  ⟨⟨by decide, by decide, by decide⟩,
    update_pcr_history_dup_update [0, 1] [5, 6] 1 7 (by decide) (by decide) (by decide)⟩

/-- The final truncation step bounds both components by 365 whenever the two
components have equal length. -/
theorem truncate_cap (p : List DateKey × List ℚ) (h : p.2.length = p.1.length) :
    (if p.1.length > 365 then
        (p.1.drop (p.1.length - 365), p.2.drop (p.2.length - 365))
      else p).1.length ≤ 365 ∧
    (if p.1.length > 365 then
        (p.1.drop (p.1.length - 365), p.2.drop (p.2.length - 365))
      else p).2.length ≤ 365 := by
  split
  · constructor <;> simp [List.length_drop] <;> omega
  · constructor <;> omega

/-- C10: whatever the input history (any length, even beyond the cap) and
whatever the sample, the merged history has at most 365 entries in each
component, because the truncation runs unconditionally after insertion. -/
theorem update_pcr_history_cap (ds : List DateKey) (vs : List ℚ)
    (today : DateKey) (today_pcr : Option ℚ) (hlen : vs.length = ds.length) :
    (update_pcr_history (some (ds, vs)) today today_pcr).1.length ≤ 365 ∧
    (update_pcr_history (some (ds, vs)) today today_pcr).2.length ≤ 365 := by
  simp only [update_pcr_history]
  apply truncate_cap
  cases today_pcr with
  | none => exact hlen
  | some v =>
    dsimp only
    by_cases hmem : today ∈ ds
    · rw [if_pos hmem]
      simp [hlen]
    · rw [if_neg hmem]
      simp [hlen]

/-- C10 witness: a one-entry history with a fresh present sample. -/
theorem update_pcr_history_cap_witness :
    ([(1 : ℚ)].length = [(0 : Int)].length) ∧
    ((update_pcr_history (some ([0], [1])) 3 (some 2)).1.length ≤ 365 ∧
     (update_pcr_history (some ([0], [1])) 3 (some 2)).2.length ≤ 365) :=
  ⟨rfl, update_pcr_history_cap [0] [1] 3 (some 2) rfl⟩

/-! ### The accumulation run (one sample per consecutive day) -/

/-- A freshly merged day is never already present: every recorded day index
is strictly smaller. -/
theorem not_mem_range'_map (start : DateKey) (s n m : Nat) (hm : s + n ≤ m) :
    (start + (m : Int)) ∉ (List.range' s n).map (fun i : Nat => start + (i : Int)) := by
  intro h
  obtain ⟨i, hi, he⟩ := List.mem_map.1 h
  obtain ⟨j, hj, rfl⟩ := List.mem_range'.1 hi
  have he' : start + ((s + 1 * j : Nat) : Int) = start + (m : Int) := he
  have he2 : ((s + 1 * j : Nat) : Int) = (m : Int) := by
    exact add_left_cancel he'
  have he3 : s + 1 * j = m := by exact_mod_cast he2
  omega

/-- Appending the next day to a sub-cap window extends the window. -/
theorem range'_map_concat_small (n : Nat) (h : Nat → β) :
    (List.range' 0 n).map h ++ [h n] = (List.range' 0 (n + 1)).map h := by
  rw [List.range'_concat, List.map_append]
  norm_num

/-- Appending the next day to a full window and dropping the oldest entry
slides the window. -/
theorem range'_map_concat_slide (n : Nat) (hn : 365 ≤ n) (h : Nat → β) :
    ((List.range' (n - 365) 365).map h ++ [h n]).drop 1 =
      (List.range' ((n + 1) - 365) 365).map h := by
  have e1 : (n - 365) + 1 = n - 364 := by omega
  have h1 := List.range'_succ (n - 365) 364 1
  rw [e1] at h1
  norm_num at h1
  have h2 : List.range' (n - 364) (364 + 1) =
      List.range' (n - 364) 364 ++ [(n - 364) + 1 * 364] :=
    List.range'_concat (n - 364) 364
  have e2 : (n - 364) + 1 * 364 = n := by omega
  rw [e2] at h2
  norm_num at h2
  have e4 : (n + 1) - 365 = n - 364 := by omega
  rw [h1, e4, h2, List.map_append]
  simp

/-- Closed form of the accumulation run: after `n` one-a-day merges the
history is the window of the last `min n 365` day indices, mapped to dates
resp. values. -/
theorem merge_run_eq (start : DateKey) (vals : Nat → ℚ) :
    ∀ n, merge_run start vals n =
      ((List.range' (n - 365) (min n 365)).map (fun i : Nat => start + (i : Int)),
       (List.range' (n - 365) (min n 365)).map vals) := by
  intro n
  induction n with
  | zero =>
    have hm : min 0 365 = 0 := by omega
    rw [hm]
    rfl
  | succ n ih =>
    have hstep : merge_run start vals (n + 1) =
        update_pcr_history (some (merge_run start vals n)) (start + (n : Int))
          (some (vals n)) := rfl
    rw [hstep, ih]
    have hmem : (start + (n : Int)) ∉
        (List.range' (n - 365) (min n 365)).map (fun i : Nat => start + (i : Int)) :=
      not_mem_range'_map start (n - 365) (min n 365) n (by omega)
    simp only [update_pcr_history]
    rw [if_neg hmem]
    by_cases hn : n < 365
    · have hmin : min n 365 = n := by omega
      have hmin' : min (n + 1) 365 = n + 1 := by omega
      have hz : n - 365 = 0 := by omega
      have hz' : (n + 1) - 365 = 0 := by omega
      rw [hmin, hmin', hz, hz']
      rw [if_neg (by
        simp only [List.length_append, List.length_map, List.length_range',
          List.length_cons, List.length_nil]
        omega)]
      rw [Prod.mk.injEq]
      exact ⟨range'_map_concat_small n (fun i : Nat => start + (i : Int)),
        range'_map_concat_small n vals⟩
    · have hmin : min n 365 = 365 := by omega
      have hmin' : min (n + 1) 365 = 365 := by omega
      rw [hmin, hmin']
      rw [if_pos (by
        simp only [List.length_append, List.length_map, List.length_range',
          List.length_cons, List.length_nil]
        omega)]
      have hl1 : (((List.range' (n - 365) 365).map
          (fun i : Nat => start + (i : Int))) ++ [start + (n : Int)]).length - 365 = 1 := by
        simp
      have hl2 : (((List.range' (n - 365) 365).map vals) ++ [vals n]).length - 365 = 1 := by
        simp
      rw [hl1, hl2]
      rw [Prod.mk.injEq]
      exact ⟨range'_map_concat_slide n (by omega) (fun i : Nat => start + (i : Int)),
        range'_map_concat_slide n (by omega) vals⟩

/-- C6: starting from an empty history and merging one present sample per day
for 365 + 10 consecutive strictly increasing dates `start, start + 1, …`
yields a history of length exactly 365 holding the most recent 365 dates
`start + 10, …, start + 374` in order, oldest dates dropped from the front,
with the matching values. -/
theorem merge_run_cap (start : DateKey) (vals : Nat → ℚ) :
    (merge_run start vals (365 + 10)).1.length = 365 ∧
    (merge_run start vals (365 + 10)).1 =
      (List.range' 10 365).map (fun i : Nat => start + (i : Int)) ∧
    (merge_run start vals (365 + 10)).2 = (List.range' 10 365).map vals := by
  have h := merge_run_eq start vals (365 + 10)
  have h1 : (365 + 10) - 365 = 10 := by omega
  have h2 : min (365 + 10) 365 = 365 := by omega
  rw [h1, h2] at h
  rw [h]
  simp

/-! ### Properties of the ratio adapter, the aligner's table, and the run -/

/-- C7: whenever the summed call open interest is zero (in particular when no
expirations are listed) the adapter returns `none` instead of dividing;
whenever it is nonzero the adapter returns the put/call ratio rounded to 4
decimal places. -/
theorem fetch_ibit_pcr_division_guard (chains : List (ℚ × ℚ)) :
    ((chains.map Prod.fst).sum = 0 → fetch_ibit_pcr chains = none) ∧
    ((chains.map Prod.fst).sum ≠ 0 →
      fetch_ibit_pcr chains =
        some (pyround ((chains.map Prod.snd).sum / (chains.map Prod.fst).sum) 4)) := by
  constructor
  · intro h
    by_cases hc : chains = []
    · simp [fetch_ibit_pcr, hc]
    · simp [fetch_ibit_pcr, hc, h]
  · intro h
    have hc : chains ≠ [] := by
      intro hc
      rw [hc] at h
      simp at h
    simp [fetch_ibit_pcr, hc, h]

/-- C7 witness: one chain with zero call open interest yields `none`; one
chain with call open interest 4 and put open interest 2 yields the rounded
ratio. -/
theorem fetch_ibit_pcr_division_guard_witness :
    (([((0 : ℚ), (5 : ℚ))].map Prod.fst).sum = 0 ∧
      fetch_ibit_pcr [((0 : ℚ), 5)] = none) ∧
    (([((4 : ℚ), (2 : ℚ))].map Prod.fst).sum ≠ 0 ∧
      fetch_ibit_pcr [((4 : ℚ), 2)] =
        some (pyround (([((4 : ℚ), (2 : ℚ))].map Prod.snd).sum /
          ([((4 : ℚ), (2 : ℚ))].map Prod.fst).sum) 4)) :=
  ⟨⟨by simp, (fetch_ibit_pcr_division_guard [((0 : ℚ), 5)]).1 (by simp)⟩,
   ⟨by simp, (fetch_ibit_pcr_division_guard [((4 : ℚ), 2)]).2 (by simp)⟩⟩

/-- C8: on the exact-match path the aligned auxiliary column carries the
auxiliary's stored value unchanged: if position `i` of the axis holds a date
`d` on which the auxiliary series stores `v`, then position `i` of that
auxiliary's output column holds exactly `v`. -/
theorem align_data_exact_match (btc fng vix : DateSeries) (i : Nat) (d : DateKey)
    (hd : (align_data btc fng vix).dates[i]? = some d) :
    (∀ v : ℚ, fng.lookup d = some v →
      (align_data btc fng vix).fng_index[i]? = some (some v)) ∧
    (∀ v : ℚ, vix.lookup d = some v →
      (align_data btc fng vix).vix_index[i]? = some (some v)) := by
  constructor
  · intro v hv
    have he : (align_data btc fng vix).fng_index =
        (align_data btc fng vix).dates.map (fun date => align_value fng date) := rfl
    rw [he, List.getElem?_map, hd]
    simp [align_value, hv]
  · intro v hv
    have he : (align_data btc fng vix).vix_index =
        (align_data btc fng vix).dates.map (fun date => align_value vix date) := rfl
    rw [he, List.getElem?_map, hd]
    simp [align_value, hv]

/-- C8 witness: reference and auxiliaries all sampled on date 1; the aligned
sentiment column returns the stored 7 unchanged. -/
theorem align_data_exact_match_witness :
    (align_data [((1 : Int), (100 : ℚ))] [((1 : Int), (7 : ℚ))]
        [((1 : Int), (9 : ℚ))]).dates[0]? = some 1 ∧
    [((1 : Int), (7 : ℚ))].lookup (1 : Int) = some 7 ∧
    (align_data [((1 : Int), (100 : ℚ))] [((1 : Int), (7 : ℚ))]
        [((1 : Int), (9 : ℚ))]).fng_index[0]? = some (some 7) := by
  have hd : (align_data [((1 : Int), (100 : ℚ))] [((1 : Int), (7 : ℚ))]
      [((1 : Int), (9 : ℚ))]).dates[0]? = some 1 := by
    simp [align_data]
  exact ⟨hd, rfl,
    (align_data_exact_match [((1 : Int), (100 : ℚ))] [((1 : Int), (7 : ℚ))]
      [((1 : Int), (9 : ℚ))] 0 1 hd).1 7 rfl⟩

/-- C9: for a reference series with pairwise-distinct date keys, the aligned
table's axis is the sorted reference key multiset — a permutation of the
keys that is strictly increasing — and every output column has exactly the
axis's length (one entry per reference date). -/
theorem align_data_axis_invariant (btc fng vix : DateSeries)
    (h : (btc.map Prod.fst).Nodup) :
    (align_data btc fng vix).dates.Perm (btc.map Prod.fst) ∧
    (align_data btc fng vix).dates.Pairwise (· < ·) ∧
    (align_data btc fng vix).btc_prices.length = (align_data btc fng vix).dates.length ∧
    (align_data btc fng vix).fng_index.length = (align_data btc fng vix).dates.length ∧
    (align_data btc fng vix).vix_index.length = (align_data btc fng vix).dates.length := by
  have hperm : ((btc.map Prod.fst).mergeSort (fun a b => decide (a ≤ b))).Perm
      (btc.map Prod.fst) := List.mergeSort_perm _ _
  have hsorted : ((btc.map Prod.fst).mergeSort (fun a b => decide (a ≤ b))).Pairwise
      (fun a b => decide (a ≤ b) = true) := by
    apply List.sorted_mergeSort
    · intro a b c hab hbc
      have hab' : a ≤ b := by simpa using hab
      have hbc' : b ≤ c := by simpa using hbc
      simp only [decide_eq_true_eq]
      exact le_trans hab' hbc'
    · intro a b
      simp only [Bool.or_eq_true, decide_eq_true_eq]
      exact Int.le_total a b
  have hnodup : ((btc.map Prod.fst).mergeSort (fun a b => decide (a ≤ b))).Nodup :=
    (List.mergeSort_perm _ _).symm.nodup h
  have hlt : ((btc.map Prod.fst).mergeSort (fun a b => decide (a ≤ b))).Pairwise
      (· < ·) := by
    refine (hsorted.and hnodup).imp ?_
    intro a b hab
    obtain ⟨h1, h2⟩ := hab
    have hle : a ≤ b := by simpa using h1
    exact lt_of_le_of_ne hle h2
  exact ⟨hperm, hlt, List.length_map _ _, List.length_map _ _, List.length_map _ _⟩

/-- C9 witness: a one-entry reference series with empty auxiliaries. -/
theorem align_data_axis_invariant_witness :
    ([((1 : Int), (100 : ℚ))].map Prod.fst).Nodup ∧
    ((align_data [((1 : Int), (100 : ℚ))] [] []).dates.Perm
        ([((1 : Int), (100 : ℚ))].map Prod.fst) ∧
      (align_data [((1 : Int), (100 : ℚ))] [] []).dates.Pairwise (· < ·) ∧
      (align_data [((1 : Int), (100 : ℚ))] [] []).btc_prices.length =
        (align_data [((1 : Int), (100 : ℚ))] [] []).dates.length ∧
      (align_data [((1 : Int), (100 : ℚ))] [] []).fng_index.length =
        (align_data [((1 : Int), (100 : ℚ))] [] []).dates.length ∧
      (align_data [((1 : Int), (100 : ℚ))] [] []).vix_index.length =
        (align_data [((1 : Int), (100 : ℚ))] [] []).dates.length) :=
  ⟨by decide, align_data_axis_invariant [((1 : Int), (100 : ℚ))] [] [] (by decide)⟩

/-- C4 (counterexample): a run with a non-empty reference price series can
still write nothing: a loaded snapshot whose `pcr_dates` contains today but
whose `pcr_index` is shorter makes the in-place accumulator update raise
before the write — a second fatal no-write path besides the empty reference
series. -/
theorem main_run_crash_cex :
    ([((0 : Int), (100 : ℚ))] : DateSeries) ≠ [] ∧
    main_run (some ([0], [])) [((0 : Int), (100 : ℚ))] [] [] 0 (some 1) = none := by
  constructor
  · simp
  · rfl

/-- Under well-formed loaded accumulator state (value sequence as long as
the dates sequence), the checked accumulator update never raises. -/
theorem update_pcr_history_checked_ne_none
    (existing_data : Option (List DateKey × List ℚ)) (today : DateKey)
    (today_pcr : Option ℚ)
    (hwf : ∀ p ∈ existing_data, p.2.length = p.1.length) :
    update_pcr_history_checked existing_data today today_pcr ≠ none := by
  cases existing_data with
  | none =>
    cases today_pcr with
    | none => simp [update_pcr_history_checked]
    | some v => simp [update_pcr_history_checked]
  | some h =>
    obtain ⟨ds, vs⟩ := h
    have hlen : vs.length = ds.length := hwf (ds, vs) rfl
    cases today_pcr with
    | none => simp [update_pcr_history_checked]
    | some v =>
      simp only [update_pcr_history_checked]
      by_cases hmem : today ∈ ds
      · have hidx : ds.indexOf today < ds.length := indexOf_lt_length_of_mem hmem
        rw [if_neg (by
          intro hc
          have := hc.2
          omega)]
        simp
      · rw [if_neg (by
          intro hc
          exact hmem hc.1)]
        simp

/-- C4 (amended): for every run whose loaded accumulator state is well-formed
(`pcr_index` as long as `pcr_dates`, as every snapshot the program itself
writes is), the run writes no snapshot exactly when the reference price
series is empty; with a nonempty reference series a snapshot is always
assembled and written, whatever the other sources returned (including empty
series and an absent ratio sample).  Without that proviso a malformed loaded
snapshot is a second fatal no-write path (`main_run_crash_cex`). -/
theorem main_run_none_iff_empty (existing_data : Option (List DateKey × List ℚ))
    (btc fng vix : DateSeries) (today : DateKey) (today_pcr : Option ℚ)
    (hwf : ∀ p ∈ existing_data, p.2.length = p.1.length) :
    main_run existing_data btc fng vix today today_pcr = none ↔ btc = [] := by
  by_cases hb : btc = []
  · simp [main_run, hb]
  · obtain ⟨r, hr⟩ := Option.ne_none_iff_exists'.1
      (update_pcr_history_checked_ne_none existing_data today today_pcr hwf)
    simp [main_run, hb, hr]

/-- C4 witness: a well-formed one-entry loaded history, a nonempty price
series, empty auxiliaries and a present sample: the snapshot is written. -/
theorem main_run_none_iff_empty_witness :
    (∀ p ∈ (some ([(0 : Int)], [(1 : ℚ)]) : Option (List DateKey × List ℚ)),
      p.2.length = p.1.length) ∧
    (main_run (some ([0], [1])) [((2 : Int), (100 : ℚ))] [] [] 0 (some 3) = none ↔
      ([((2 : Int), (100 : ℚ))] : DateSeries) = []) :=
  ⟨by simp, main_run_none_iff_empty (some ([0], [1])) [((2 : Int), (100 : ℚ))]
    [] [] 0 (some 3) (by simp)⟩

end FetchData
